import Mathlib

/-!
# Verification of the pgtrigger registry (`pgtrigger/registry.py`)

This file gives a shallow embedding of the trigger-catalog module
(`_Registry` and its public `set` / `delete` operations) and proves, or
refutes, the specification's claims about it.

Modelling decisions, in correspondence with the Python source:

* The registry's backing dict (`collections.UserDict.data`, a Python dict
  from URI strings to `(model, trigger)` pairs) is an association list
  `List (String × Model × Trigger)` with Python-dict semantics: insertion
  replaces the value of an existing key in place and appends fresh keys at
  the end, deletion removes the key, and lookup finds the key's entry.
* `model._meta` state that the registry reads and writes — the `triggers`
  attribute (which may be absent, hence `Option`) and the
  `original_attrs["triggers"]` entry (the key may be absent, hence
  `Option`) — is per-model state, kept in an association list from models.
* Python exceptions become an error code returned together with the state
  at the moment of the raise, so that partial mutation before a raise is
  observable, exactly as it is for the process-global Python registry.
* `features.migrations()` (the synchronization toggle, a module external
  to the registry) is a boolean parameter `mig` threaded through.
* `trigger.get_pgid(model)` lives in `pgtrigger/core.py`, outside the
  module under study; per the spec it is a deterministic string derived
  from the model's `db_table` and the trigger's `name`.  All definitions
  are therefore parameterised by a function `pg : String → String → String`
  applied to `(db_table, name)`, and theorems hold for every such function;
  concrete instances are given below for witnesses.
* Trigger equality (`found_trigger != trigger`, `trigger in ...`) is value
  equality of trigger definitions, per the spec ("an immutable value",
  "membership by value equality"); `Trigger` carries its `name` and an
  opaque `defn` payload standing for the rest of the definition, compared
  structurally.
-/

namespace Pgtrigger

/-- A trigger definition: its `name` plus an opaque payload `defn` standing
for the rest of the immutable definition (operation set, condition, ...),
so that two triggers with the same name can still differ.  Compared by
value equality. -/
structure Trigger where
  name : String
  defn : String
deriving DecidableEq, Repr

/-- The capability view of a Django model class that the registry uses:
`model._meta.label` and `model._meta.db_table`. -/
structure Model where
  label : String
  db_table : String
deriving DecidableEq, Repr

/-- The per-model `_meta` state the registry mutates: the `triggers`
attribute (`none` = attribute absent, read via
`getattr(model._meta, "triggers", [])`) and the `"triggers"` entry of
`model._meta.original_attrs` (`none` = key absent). -/
structure MetaState where
  triggers : Option (List Trigger)
  original_triggers : Option (List Trigger)
deriving DecidableEq, Repr

/-- One entry of the registry's backing dict: URI key, model, trigger. -/
abbrev RegEntry := String × Model × Trigger

/-- The whole mutable state: the registry's dict (`_registry.data`) plus
the `_meta` state of every model. -/
structure State where
  data : List RegEntry
  meta : List (Model × MetaState)
deriving DecidableEq, Repr

/-- The Python exceptions the module can raise, as error codes. -/
inductive RegError where
  /-- `ValueError('Trigger URI must be in the format ...')` -/
  | malformedURI
  /-- `KeyError('URI ... not found in pgtrigger registry')` -/
  | notFound
  /-- `KeyError('Trigger name ... already used for model ...')` -/
  | duplicateName
  /-- `KeyError('Trigger ... has Postgres function name that is already in use ...')` -/
  | duplicateFunctionId
  /-- `AssertionError` from `assert f"{model._meta.label}:{trigger.name}" == key` -/
  | assertionFailed
  /-- `AttributeError` from `model._meta.triggers` when the attribute is absent -/
  | attributeMissing
  /-- `ValueError` from `list.remove` on an element that is absent -/
  | valueErrorRemove
  /-- `KeyError` from `model._meta.original_attrs["triggers"]` when the key is absent -/
  | keyErrorOriginal
deriving DecidableEq, Repr

/-- Python-dict lookup on an association list: the value stored under `k`,
if any. -/
def alistLookup {κ ν : Type} [DecidableEq κ] (l : List (κ × ν)) (k : κ) : Option ν :=
  (l.find? (fun e => e.1 = k)).map (fun e => e.2)

/-- Python-dict insertion: replace the value of an existing key in place,
append a fresh key at the end (Python dicts preserve insertion order). -/
def alistInsert {κ ν : Type} [DecidableEq κ] (l : List (κ × ν)) (k : κ) (v : ν) :
    List (κ × ν) :=
  if l.any (fun e => e.1 = k) then
    l.map (fun e => if e.1 = k then (k, v) else e)
  else
    l ++ [(k, v)]

/-- Python-dict deletion: drop the key's entry. -/
def alistErase {κ ν : Type} [DecidableEq κ] (l : List (κ × ν)) (k : κ) : List (κ × ν) :=
  l.filter (fun e => ¬ e.1 = k)

/-- Lookup in the registry's backing dict. -/
def dictLookup (reg : List RegEntry) (k : String) : Option (Model × Trigger) :=
  alistLookup reg k

/-- Insertion into the registry's backing dict. -/
def dictInsert (reg : List RegEntry) (k : String) (v : Model × Trigger) : List RegEntry :=
  alistInsert reg k v

/-- Deletion from the registry's backing dict. -/
def dictErase (reg : List RegEntry) (k : String) : List RegEntry :=
  alistErase reg k

/-- Read a model's `_meta` state; a model never touched has both the
`triggers` attribute and the `original_attrs["triggers"]` key absent. -/
def getMeta (ms : List (Model × MetaState)) (m : Model) : MetaState :=
  (alistLookup ms m).getD ⟨none, none⟩

/-- Write a model's `_meta` state. -/
def setMeta (ms : List (Model × MetaState)) (m : Model) (x : MetaState) :
    List (Model × MetaState) :=
  alistInsert ms m x

/-- `len(key.split(":")) == 1` is false exactly when the key contains a
colon; the module's URI well-formedness test. -/
def hasColon (s : String) : Bool := decide (':' ∈ s.data)

/-- `_Registry.pg_function_names`: the generated Postgres function name of
every registered trigger (a Python `set`; only membership matters). -/
def pg_function_names (pg : String → String → String) (reg : List RegEntry) : List String :=
  reg.map (fun e => pg e.2.1.db_table e.2.2.name)

/-- `_Registry.by_db_table`: the dict comprehension
`{(model._meta.db_table, trigger.name): trigger for model, trigger in self.values()}`
followed by `.get` — the *last* entry with the given `(db_table, name)`
wins, since later comprehension iterations overwrite earlier ones. -/
def by_db_table (reg : List RegEntry) (tb nm : String) : Option Trigger :=
  match reg with
  | [] => none
  | e :: rest =>
    match by_db_table rest tb nm with
    | some t => some t
    | none => if e.2.1.db_table = tb ∧ e.2.2.name = nm then some e.2.2 else none

/-- `_Registry.__getitem__`: malformed-URI check, then presence check, then
the stored entry. -/
def getitem (st : State) (key : String) : Except RegError (Model × Trigger) :=
  if hasColon key = false then
    .error .malformedURI
  else
    match dictLookup st.data key with
    | none => .error .notFound
    | some v => .ok v

/-- The migration-metadata mirror run by `__setitem__` under
`features.migrations()`: append the trigger to `model._meta.triggers` if
not already present, then to `model._meta.original_attrs["triggers"]` if
not already present (both reads default the missing attribute / key to the
empty list, and both writes bind a fresh list). -/
def mirrorMeta (ms : MetaState) (trigger : Trigger) : MetaState :=
  let live := ms.triggers.getD []
  let ms1 := if trigger ∈ live then ms else
    { ms with triggers := some (live ++ [trigger]) }
  let orig := ms1.original_triggers.getD []
  if trigger ∈ orig then ms1 else
    { ms1 with original_triggers := some (orig ++ [trigger]) }

/-- The owners' metadata after a committed `__setitem__`: mirrored when
`features.migrations()` is on, untouched otherwise. -/
def metaAfter (mig : Bool) (ms : List (Model × MetaState)) (m : Model) (t : Trigger) :
    List (Model × MetaState) :=
  if mig then setMeta ms m (mirrorMeta (getMeta ms m) t) else ms

/-- `_Registry.__setitem__`.  Returns the error raised (if any) together
with the state at that moment.  Mirrors the source exactly: the key
assertion; `found_trigger = self.by_db_table.get(...)`; the
`if not found_trigger or found_trigger != trigger` block (entered when
nothing is found or a different trigger is found) raising `DuplicateName`
when something was found and otherwise the pg-function-name `KeyError` on
a collision; then, under `features.migrations()`, the metadata mirror;
then the store write. -/
def setitem (mig : Bool) (pg : String → String → String) (st : State)
    (key : String) (model : Model) (trigger : Trigger) : Option RegError × State :=
  if key = model.label ++ ":" ++ trigger.name then
    let found := by_db_table st.data model.db_table trigger.name
    let err : Option RegError :=
      if found = some trigger then
        none
      else if found.isSome then
        some .duplicateName
      else if (pg_function_names pg st.data).contains (pg model.db_table trigger.name) then
        some .duplicateFunctionId
      else
        none
    match err with
    | some e => (some e, st)
    | none =>
      let st1 :=
        if mig then { st with meta := setMeta st.meta model (mirrorMeta (getMeta st.meta model) trigger) }
        else st
      (none, { st1 with data := dictInsert st1.data key (model, trigger) })
  else
    (some .assertionFailed, st)

/-- `_Registry.__delitem__`.  `self[key]` first (so malformed-URI and
not-found errors propagate before anything happens), then
`super().__delitem__(key)` — the store is mutated *before* the metadata
mirror — then, under `features.migrations()`,
`model._meta.triggers.remove(trigger)` (AttributeError if the attribute is
absent, ValueError if the trigger is not in the list) and the guarded
removal from `model._meta.original_attrs["triggers"]` (KeyError if that
key is absent). -/
def delitem (mig : Bool) (st : State) (key : String) : Option RegError × State :=
  match getitem st key with
  | .error e => (some e, st)
  | .ok (model, trigger) =>
    let st1 : State := { st with data := dictErase st.data key }
    if mig then
      let ms := getMeta st1.meta model
      match ms.triggers with
      | none => (some .attributeMissing, st1)
      | some live =>
        if trigger ∈ live then
          let ms1 := { ms with triggers := some (live.erase trigger) }
          match ms1.original_triggers with
          | none =>
            (some .keyErrorOriginal, { st1 with meta := setMeta st1.meta model ms1 })
          | some orig =>
            let ms2 := if trigger ∈ orig then
              { ms1 with original_triggers := some (orig.erase trigger) } else ms1
            (none, { st1 with meta := setMeta st1.meta model ms2 })
        else
          (some .valueErrorRemove, st1)
    else
      (none, st1)

/-- Public `pgtrigger.registry.set(uri, model=..., trigger=...)`:
`_registry[uri] = (model, trigger)`. -/
def set (mig : Bool) (pg : String → String → String) (st : State)
    (uri : String) (model : Model) (trigger : Trigger) : Option RegError × State :=
  setitem mig pg st uri model trigger

/-- Public `pgtrigger.registry.delete(uri)`: `del _registry[uri]`. -/
def delete (mig : Bool) (st : State) (uri : String) : Option RegError × State :=
  delitem mig st uri

/-- Modelled from the spec: `Trigger.get_pgid` lives in `pgtrigger/core.py`,
which is not part of the module under study.  The spec describes it as "a
deterministic, table-and-name-derived string".  This concrete instance is
used for witnesses; theorems are parameterised over the derivation
function. -/
def get_pgid (db_table nm : String) : String :=
  "pgtrigger_" ++ nm ++ "_" ++ db_table

/-- Modelled from the spec: a second concrete derivation function that,
like the real hash-truncated `get_pgid`, is not injective — distinct
`(db_table, name)` pairs can "happen to coincide" on one generated
function identifier (here, by ignoring the table). -/
def pgidNameOnly (_db_table nm : String) : String :=
  "pgtrigger_" ++ nm

/-- The model's live trigger list, `getattr(model._meta, "triggers", [])`. -/
def liveList (st : State) (m : Model) : List Trigger :=
  (getMeta st.meta m).triggers.getD []

/-- The model's original-declaration trigger list,
`model._meta.original_attrs.get("triggers", [])`. -/
def origList (st : State) (m : Model) : List Trigger :=
  (getMeta st.meta m).original_triggers.getD []

/-- How many entries of the backing dict carry the key `k` (always 0 or 1
for a real Python dict). -/
def countKey (reg : List RegEntry) (k : String) : Nat :=
  (reg.filter (fun e => e.1 = k)).length

/-- The generated function identifier of a stored entry. -/
def pgidOf (pg : String → String → String) (e : RegEntry) : String :=
  pg e.2.1.db_table e.2.2.name

/-- The `(db_table, trigger name)` pair of a stored entry. -/
def tnOf (e : RegEntry) : String × String :=
  (e.2.1.db_table, e.2.2.name)

/-- States reachable from the empty catalog by successful public `set` and
`delete` calls. -/
inductive Reachable (mig : Bool) (pg : String → String → String) : State → Prop where
  | empty : Reachable mig pg ⟨[], []⟩
  | setStep {st st' : State} {k : String} {m : Model} {t : Trigger} :
      Reachable mig pg st → set mig pg st k m t = (none, st') → Reachable mig pg st'
  | delStep {st st' : State} {k : String} :
      Reachable mig pg st → delete mig st k = (none, st') → Reachable mig pg st'

/-- The spec's global function-id uniqueness claim: no two distinct
stored entries produce the same generated function identifier. -/
def PgidUnique (pg : String → String → String) (st : State) : Prop :=
  ∀ e1 ∈ st.data, ∀ e2 ∈ st.data, e1 ≠ e2 → pgidOf pg e1 ≠ pgidOf pg e2

/-- The invariant the code actually maintains: any two stored entries with
the same generated function identifier have the same `(db_table, name)`
pair. -/
def PgidSameTableName (pg : String → String → String) (st : State) : Prop :=
  ∀ e1 ∈ st.data, ∀ e2 ∈ st.data, pgidOf pg e1 = pgidOf pg e2 → tnOf e1 = tnOf e2

/-! ## Concrete fixtures for witnesses and counterexamples -/

/-- A model on a shared database table. -/
def mShared1 : Model := ⟨"app.M1", "shared_table"⟩

/-- A second, distinct model backed by the same database table (Django
proxy models and explicit `db_table` settings make this real). -/
def mShared2 : Model := ⟨"app.M2", "shared_table"⟩

/-- A model on its own table. -/
def mOther : Model := ⟨"app.M3", "other_table"⟩

/-- A trigger definition. -/
def tShared : Trigger := ⟨"t1", "d"⟩

/-- A different trigger definition with the same name. -/
def tOther : Trigger := ⟨"t1", "other"⟩

/-- A third trigger definition, same name, for the `mOther` table. -/
def tThird : Trigger := ⟨"t1", "c"⟩

/-- The catalog after `set("app.M1:t1", mShared1, tShared)` from empty
with synchronization on. -/
def c1StateA : State :=
  ⟨[("app.M1:t1", mShared1, tShared)], [(mShared1, ⟨some [tShared], some [tShared]⟩)]⟩

/-- The catalog after additionally `set("app.M2:t1", mShared2, tShared)`:
two distinct entries over the same `(db_table, name)` pair. -/
def c1StateB : State :=
  ⟨[("app.M1:t1", mShared1, tShared), ("app.M2:t1", mShared2, tShared)],
   [(mShared1, ⟨some [tShared], some [tShared]⟩),
    (mShared2, ⟨some [tShared], some [tShared]⟩)]⟩

/-- A stored entry whose owner's `original_attrs` has no `"triggers"`
key. -/
def c7State : State :=
  ⟨[("app.M1:t1", mShared1, tShared)], [(mShared1, ⟨some [tShared], none⟩)]⟩

/-- A stored entry whose trigger is missing from the owner's live
`_meta.triggers` list. -/
def c10State : State :=
  ⟨[("app.M1:t1", mShared1, tShared)], [(mShared1, ⟨some [], some [tShared]⟩)]⟩

/-! ## Association-list (Python dict) lemmas -/

theorem find?_key_map_replace {κ ν : Type} [DecidableEq κ] (l : List (κ × ν)) (k : κ) (v : ν)
    (h : l.any (fun e => e.1 = k) = true) :
    (l.map (fun e => if e.1 = k then (k, v) else e)).find? (fun e => e.1 = k) = some (k, v) := by
  induction l with
  | nil => simp at h
  | cons e rest ih =>
    by_cases he : e.1 = k
    · simp [he, List.find?_cons]
    · have h' : rest.any (fun e => e.1 = k) = true := by simpa [he] using h
      simp [he, List.find?_cons, ih h']

theorem alistLookup_insert {κ ν : Type} [DecidableEq κ] (l : List (κ × ν)) (k : κ) (v : ν) :
    alistLookup (alistInsert l k v) k = some v := by
  unfold alistLookup alistInsert
  by_cases h : l.any (fun e => e.1 = k) = true
  · rw [if_pos h, find?_key_map_replace l k v h]
    rfl
  · rw [if_neg h]
    have hnone : l.find? (fun e => decide (e.1 = k)) = none := by
      rw [List.find?_eq_none]
      intro x hx hxk
      exact h (List.any_eq_true.mpr ⟨x, hx, hxk⟩)
    rw [List.find?_append, hnone]
    simp

theorem alistLookup_erase {κ ν : Type} [DecidableEq κ] (l : List (κ × ν)) (k : κ) :
    alistLookup (alistErase l k) k = none := by
  unfold alistLookup alistErase
  have : (l.filter (fun e => ¬ e.1 = k)).find? (fun e => decide (e.1 = k)) = none := by
    rw [List.find?_eq_none]
    intro x hx
    have := (List.mem_filter.mp hx).2
    simpa using this
  rw [this]
  rfl

theorem mem_alistInsert {κ ν : Type} [DecidableEq κ] {l : List (κ × ν)} {k : κ} {v : ν}
    {e : κ × ν} (h : e ∈ alistInsert l k v) : e ∈ l ∨ e = (k, v) := by
  unfold alistInsert at h
  by_cases hany : l.any (fun e => e.1 = k) = true
  · rw [if_pos hany] at h
    rcases List.mem_map.mp h with ⟨a, ha, hae⟩
    by_cases hk : a.1 = k
    · right
      simp only [if_pos hk] at hae
      exact hae.symm
    · left
      simp only [if_neg hk] at hae
      exact hae ▸ ha
  · rw [if_neg hany] at h
    rcases List.mem_append.mp h with h | h
    · exact Or.inl h
    · exact Or.inr (by simpa using h)

theorem countKey_filter_map_replace (reg : List RegEntry) (k : String) (v : Model × Trigger) :
    ((reg.map (fun e => if e.1 = k then (k, v) else e)).filter (fun e => e.1 = k)).length
      = (reg.filter (fun e => e.1 = k)).length := by
  induction reg with
  | nil => simp
  | cons e rest ih =>
    by_cases he : e.1 = k
    · simp [he, List.filter_cons, ih]
    · simp [he, List.filter_cons, ih]

theorem countKey_insert (reg : List RegEntry) (k : String) (v : Model × Trigger) :
    countKey (dictInsert reg k v) k
      = if reg.any (fun e => e.1 = k) = true then countKey reg k else countKey reg k + 1 := by
  unfold countKey dictInsert alistInsert
  by_cases h : reg.any (fun e => e.1 = k) = true
  · rw [if_pos h, if_pos h]
    exact countKey_filter_map_replace reg k v
  · rw [if_neg h, if_neg h, List.filter_append]
    simp

theorem countKey_pos_of_any {reg : List RegEntry} {k : String}
    (h : reg.any (fun e => e.1 = k) = true) : 0 < countKey reg k := by
  rcases List.any_eq_true.mp h with ⟨e, he, hk⟩
  unfold countKey
  have : e ∈ reg.filter (fun e => e.1 = k) := List.mem_filter.mpr ⟨he, hk⟩
  exact List.length_pos.mpr (List.ne_nil_of_mem this)

theorem any_of_countKey_pos {reg : List RegEntry} {k : String}
    (h : 0 < countKey reg k) : reg.any (fun e => e.1 = k) = true := by
  unfold countKey at h
  rcases List.exists_mem_of_length_pos h with ⟨e, he⟩
  have := List.mem_filter.mp he
  exact List.any_eq_true.mpr ⟨e, this.1, this.2⟩

/-! ## `by_db_table` lemmas -/

/-- A successful `by_db_table` lookup comes from some stored entry with
that `(db_table, name)` pair. -/
theorem by_db_table_some_mem {reg : List RegEntry} {tb nm : String} {t : Trigger}
    (h : by_db_table reg tb nm = some t) :
    ∃ e ∈ reg, (e.2.1.db_table = tb ∧ e.2.2.name = nm) ∧ e.2.2 = t := by
  induction reg with
  | nil => simp [by_db_table] at h
  | cons e rest ih =>
    rw [by_db_table] at h
    cases h' : by_db_table rest tb nm with
    | some t' =>
      rw [h'] at h
      rcases ih (h'.trans (by injection h with h; rw [h])) with ⟨e', he', hm⟩
      exact ⟨e', List.mem_cons_of_mem e he', hm⟩
    | none =>
      rw [h'] at h
      by_cases hm : e.2.1.db_table = tb ∧ e.2.2.name = nm
      · rw [if_pos hm] at h
        exact ⟨e, List.mem_cons_self e rest, hm, by injection h⟩
      · rw [if_neg hm] at h
        exact absurd h (by simp)

/-- If no stored entry has the `(db_table, name)` pair, `by_db_table`
finds nothing. -/
theorem by_db_table_none_of_forall {reg : List RegEntry} {tb nm : String}
    (h : ∀ e ∈ reg, ¬(e.2.1.db_table = tb ∧ e.2.2.name = nm)) :
    by_db_table reg tb nm = none := by
  induction reg with
  | nil => rfl
  | cons e rest ih =>
    rw [by_db_table, ih (fun e' he' => h e' (List.mem_cons_of_mem e he'))]
    exact if_neg (h e (List.mem_cons_self e rest))

/-- Conversely, a failed `by_db_table` lookup means no stored entry has
the `(db_table, name)` pair. -/
theorem by_db_table_forall_of_none {reg : List RegEntry} {tb nm : String}
    (h : by_db_table reg tb nm = none) :
    ∀ e ∈ reg, ¬(e.2.1.db_table = tb ∧ e.2.2.name = nm) := by
  induction reg with
  | nil => simp
  | cons e rest ih =>
    rw [by_db_table] at h
    cases h' : by_db_table rest tb nm with
    | some t' => rw [h'] at h; exact absurd h (by simp)
    | none =>
      rw [h'] at h
      intro e' he'
      rcases List.mem_cons.mp he' with he' | he'
      · subst he'
        intro hm
        rw [if_pos hm] at h
        exact absurd h (by simp)
      · exact ih h' e' he'

/-- If some entry matches and every matching entry stores the trigger `t`,
the lookup yields `t`. -/
theorem by_db_table_eq_some_of {reg : List RegEntry} {tb nm : String} {t : Trigger}
    (hex : ∃ e ∈ reg, e.2.1.db_table = tb ∧ e.2.2.name = nm)
    (hall : ∀ e ∈ reg, (e.2.1.db_table = tb ∧ e.2.2.name = nm) → e.2.2 = t) :
    by_db_table reg tb nm = some t := by
  cases h : by_db_table reg tb nm with
  | none =>
    rcases hex with ⟨e, he, hm⟩
    exact absurd hm (by_db_table_forall_of_none h e he)
  | some t' =>
    rcases by_db_table_some_mem h with ⟨e, he, hm, ht⟩
    rw [← hall e he hm, ht]

/-- `by_db_table` over a concatenation: later entries win. -/
theorem by_db_table_append (l1 l2 : List RegEntry) (tb nm : String) :
    by_db_table (l1 ++ l2) tb nm
      = match by_db_table l2 tb nm with
        | some t => some t
        | none => by_db_table l1 tb nm := by
  induction l1 with
  | nil =>
    cases h : by_db_table l2 tb nm <;> simp [h, by_db_table]
  | cons e rest ih =>
    rw [List.cons_append, by_db_table, ih, by_db_table]
    cases h : by_db_table l2 tb nm <;> cases h' : by_db_table rest tb nm <;> simp

/-- Replacing the entries stored under key `k` by `(k, m, t)` keeps a
`(m.db_table, t.name)` lookup that already yielded `t` yielding `t`:
replaced entries match that pair with trigger `t`, and the last matching
entry either survives or is itself replaced. -/
theorem by_db_table_map_replace {reg : List RegEntry} {k : String} {m : Model} {t : Trigger}
    (h : by_db_table reg m.db_table t.name = some t) :
    by_db_table (reg.map (fun e => if e.1 = k then (k, m, t) else e)) m.db_table t.name
      = some t := by
  induction reg with
  | nil => simp [by_db_table] at h
  | cons e rest ih =>
    rw [by_db_table] at h
    rw [List.map_cons, by_db_table]
    cases h' : by_db_table rest m.db_table t.name with
    | some t' =>
      rw [h'] at h
      have ht : t' = t := by injection h
      rw [ih (h'.trans (by rw [ht]))]
    | none =>
      rw [h'] at h
      have hrest := by_db_table_forall_of_none h'
      have hmap : by_db_table (rest.map (fun e => if e.1 = k then (k, m, t) else e))
          m.db_table t.name = none ∨
          by_db_table (rest.map (fun e => if e.1 = k then (k, m, t) else e))
          m.db_table t.name = some t := by
        cases h'' : by_db_table (rest.map (fun e => if e.1 = k then (k, m, t) else e))
            m.db_table t.name with
        | none => exact Or.inl rfl
        | some t'' =>
          rcases by_db_table_some_mem h'' with ⟨e', he', hm, ht⟩
          rcases List.mem_map.mp he' with ⟨a, ha, hae⟩
          right
          by_cases hk : a.1 = k
          · rw [if_pos hk] at hae
            rw [← ht, ← hae]
          · rw [if_neg hk] at hae
            exact absurd hm (hae ▸ hrest a ha)
      by_cases hm : e.2.1.db_table = m.db_table ∧ e.2.2.name = t.name
      · rw [if_pos hm] at h
        have het : e.2.2 = t := by injection h
        rcases hmap with h'' | h''
        · rw [h'']
          by_cases hk : e.1 = k
          · simp [hk]
          · simp only [if_neg hk]
            rw [if_pos hm, het]
        · rw [h'']
      · rw [if_neg hm] at h
        exact absurd h (by simp)

/-- After a Python-dict insert of `(k, (m, t))`, the `(m.db_table, t.name)`
lookup yields `t`, provided it previously yielded nothing or already `t`
(the only situations in which `__setitem__` commits). -/
theorem by_db_table_insert_self {reg : List RegEntry} {k : String} {m : Model} {t : Trigger}
    (h : by_db_table reg m.db_table t.name = none ∨
         by_db_table reg m.db_table t.name = some t) :
    by_db_table (dictInsert reg k (m, t)) m.db_table t.name = some t := by
  unfold dictInsert alistInsert
  by_cases hany : reg.any (fun e => e.1 = k) = true
  · rw [if_pos hany]
    rcases h with h | h
    · have hrest := by_db_table_forall_of_none h
      apply by_db_table_eq_some_of
      · rcases List.any_eq_true.mp hany with ⟨e, he, hk⟩
        refine ⟨(k, m, t), List.mem_map.mpr ⟨e, he, ?_⟩, rfl, rfl⟩
        rw [if_pos (by simpa using hk)]
      · intro e' he' hm
        rcases List.mem_map.mp he' with ⟨a, ha, hae⟩
        by_cases hk : a.1 = k
        · rw [if_pos hk] at hae
          rw [← hae]
        · rw [if_neg hk] at hae
          exact absurd hm (hae ▸ hrest a ha)
    · exact by_db_table_map_replace h
  · rw [if_neg hany, by_db_table_append]
    have : by_db_table [(k, m, t)] m.db_table t.name = some t := by
      rw [by_db_table, by_db_table, if_pos ⟨rfl, rfl⟩]
    rw [this]

/-! ## Function-name index, URI, metadata and operation lemmas -/

theorem pgid_not_mem_of_contains_false {pg : String → String → String}
    {reg : List RegEntry} {x : String}
    (h : (pg_function_names pg reg).contains x = false) :
    ∀ e ∈ reg, pgidOf pg e ≠ x := by
  intro e he hx
  have : x ∈ pg_function_names pg reg := List.mem_map.mpr ⟨e, he, hx⟩
  rw [List.contains_eq_any_beq] at h
  have := List.any_eq_false.mp h x this
  simp at this

theorem hasColon_concat (a b : String) : hasColon (a ++ ":" ++ b) = true := by
  unfold hasColon
  rw [decide_eq_true_eq, String.data_append, String.data_append]
  exact List.mem_append.mpr (Or.inl (List.mem_append.mpr (Or.inr (by decide))))

theorem hasColon_eq_false_of {s : String} (h : ':' ∉ s.data) : hasColon s = false := by
  unfold hasColon
  simpa using h

theorem ne_concat_of_noColon {uri a b : String} (h : ':' ∉ uri.data) :
    uri ≠ a ++ ":" ++ b := by
  intro he
  apply h
  rw [he, String.data_append, String.data_append]
  exact List.mem_append.mpr (Or.inl (List.mem_append.mpr (Or.inr (by decide))))

theorem getMeta_setMeta (ms : List (Model × MetaState)) (m : Model) (x : MetaState) :
    getMeta (setMeta ms m x) m = x := by
  unfold getMeta setMeta
  rw [alistLookup_insert]
  rfl

theorem getMeta_metaAfter_true (ms : List (Model × MetaState)) (m : Model) (t : Trigger) :
    getMeta (metaAfter true ms m t) m = mirrorMeta (getMeta ms m) t :=
  getMeta_setMeta ms m _

theorem metaAfter_false (ms : List (Model × MetaState)) (m : Model) (t : Trigger) :
    metaAfter false ms m t = ms := rfl

/-- After the `__setitem__` mirror, `model._meta.triggers` holds the old
live list with the trigger appended exactly when it was absent. -/
theorem mirrorMeta_triggers (ms : MetaState) (t : Trigger) :
    (mirrorMeta ms t).triggers
      = some (if t ∈ ms.triggers.getD [] then ms.triggers.getD []
              else ms.triggers.getD [] ++ [t]) := by
  obtain ⟨mt, mo⟩ := ms
  cases mt <;> cases mo <;>
    simp only [mirrorMeta, Option.getD_some, Option.getD_none] <;>
    repeat' split <;> simp_all

/-- After the `__setitem__` mirror, `original_attrs["triggers"]` holds the
old original list with the trigger appended exactly when it was absent. -/
theorem mirrorMeta_original (ms : MetaState) (t : Trigger) :
    (mirrorMeta ms t).original_triggers
      = some (if t ∈ ms.original_triggers.getD [] then ms.original_triggers.getD []
              else ms.original_triggers.getD [] ++ [t]) := by
  obtain ⟨mt, mo⟩ := ms
  cases mt <;> cases mo <;>
    simp only [mirrorMeta, Option.getD_some, Option.getD_none] <;>
    repeat' split <;> simp_all

theorem count_mirror_triggers {ms : MetaState} {t : Trigger}
    (h : (ms.triggers.getD []).count t ≤ 1) :
    ((mirrorMeta ms t).triggers.getD []).count t = 1 := by
  rw [mirrorMeta_triggers]
  by_cases hm : t ∈ ms.triggers.getD []
  · have := List.count_pos_iff.mpr hm
    simp only [if_pos hm, Option.getD_some]
    omega
  · have : (ms.triggers.getD []).count t = 0 := List.count_eq_zero.mpr hm
    simp [hm, this]

theorem count_mirror_original {ms : MetaState} {t : Trigger}
    (h : (ms.original_triggers.getD []).count t ≤ 1) :
    ((mirrorMeta ms t).original_triggers.getD []).count t = 1 := by
  rw [mirrorMeta_original]
  by_cases hm : t ∈ ms.original_triggers.getD []
  · have := List.count_pos_iff.mpr hm
    simp only [if_pos hm, Option.getD_some]
    omega
  · have : (ms.original_triggers.getD []).count t = 0 := List.count_eq_zero.mpr hm
    simp [hm, this]

theorem mem_mirror_triggers (ms : MetaState) (t : Trigger) :
    t ∈ (mirrorMeta ms t).triggers.getD [] := by
  rw [mirrorMeta_triggers]
  by_cases hm : t ∈ ms.triggers.getD [] <;> simp [hm]

theorem getitem_malformed {st : State} {key : String} (h : hasColon key = false) :
    getitem st key = .error .malformedURI := by
  unfold getitem
  rw [if_pos h]

theorem getitem_notFound {st : State} {key : String} (hc : hasColon key = true)
    (h : dictLookup st.data key = none) : getitem st key = .error .notFound := by
  unfold getitem
  rw [hc, if_neg (by simp), h]

theorem getitem_found {st : State} {key : String} {v : Model × Trigger}
    (hc : hasColon key = true) (h : dictLookup st.data key = some v) :
    getitem st key = .ok v := by
  unfold getitem
  rw [hc, if_neg (by simp), h]

/-- A failing lookup propagates out of `__delitem__` before any mutation. -/
theorem delitem_getitem_error {mig : Bool} {st : State} {k : String} {e : RegError}
    (h : getitem st k = .error e) : delitem mig st k = (some e, st) := by
  simp only [delitem, h]

/-- A successful `__delitem__` with synchronization on: the entry leaves
the store, the trigger leaves the live list, and it leaves the original
list exactly when it was there. -/
theorem delitem_true_ok {st : State} {k : String} {m : Model} {t : Trigger}
    {l lo : List Trigger}
    (hc : hasColon k = true) (hlook : dictLookup st.data k = some (m, t))
    (hl : (getMeta st.meta m).triggers = some l) (hmem : t ∈ l)
    (hlo : (getMeta st.meta m).original_triggers = some lo) :
    delitem true st k =
      (none,
        { data := dictErase st.data k,
          meta := setMeta st.meta m
            { triggers := some (l.erase t),
              original_triggers := some (if t ∈ lo then lo.erase t else lo) } }) := by
  have hg := getitem_found hc hlook
  simp only [delitem, hg, hl, hlo, if_pos hmem]
  by_cases ho : t ∈ lo
  · simp [ho]
  · simp only [if_neg ho]
    congr 2

/-- A successful `__delitem__` with synchronization off touches only the
store. -/
theorem delitem_false_ok {st : State} {k : String} {m : Model} {t : Trigger}
    (hc : hasColon k = true) (hlook : dictLookup st.data k = some (m, t)) :
    delitem false st k = (none, { st with data := dictErase st.data k }) := by
  have hg := getitem_found hc hlook
  simp [delitem, hg]

/-- `__delitem__` when the deleted trigger is missing from the live list:
`list.remove` raises `ValueError`, but the store entry is already gone. -/
theorem delitem_true_valueError {st : State} {k : String} {m : Model} {t : Trigger}
    {l : List Trigger}
    (hc : hasColon k = true) (hlook : dictLookup st.data k = some (m, t))
    (hl : (getMeta st.meta m).triggers = some l) (hmem : t ∉ l) :
    delitem true st k = (some .valueErrorRemove, { st with data := dictErase st.data k }) := by
  have hg := getitem_found hc hlook
  simp [delitem, hg, hl, hmem]

/-- `__delitem__` when `original_attrs` has no `"triggers"` key: the
subscript raises `KeyError`, after the store entry and the live-list
occurrence are already gone. -/
theorem delitem_true_keyError {st : State} {k : String} {m : Model} {t : Trigger}
    {l : List Trigger}
    (hc : hasColon k = true) (hlook : dictLookup st.data k = some (m, t))
    (hl : (getMeta st.meta m).triggers = some l) (hmem : t ∈ l)
    (hlo : (getMeta st.meta m).original_triggers = none) :
    delitem true st k =
      (some .keyErrorOriginal,
        { data := dictErase st.data k,
          meta := setMeta st.meta m
            { triggers := some (l.erase t), original_triggers := none } }) := by
  have hg := getitem_found hc hlook
  simp only [delitem, hg, hl, hlo, if_pos hmem]
  congr 2

/-- A successful `__delitem__` always removes the key from the store. -/
theorem delitem_ok_data {mig : Bool} {st st' : State} {k : String}
    (h : delitem mig st k = (none, st')) : st'.data = dictErase st.data k := by
  simp only [delitem] at h
  split at h
  · simp at h
  · rename_i m t heq
    split at h
    · split at h
      · simp at h
      · split at h
        · split at h
          · simp at h
          · have := ((Prod.mk.injEq _ _ _ _).mp h).2
            rw [← this]
        · simp at h
    · have := ((Prod.mk.injEq _ _ _ _).mp h).2
      rw [← this]


/-- Characterisation of a successful `__setitem__`: the key assertion
held, the result is the old state with the entry inserted (and, when
synchronization is on, the metadata mirror applied), and the uniqueness
gate passed because either an equal trigger was found under the same
`(db_table, name)` pair or nothing was found and the function id was
fresh. -/
theorem setitem_eq_ok {mig : Bool} {pg : String → String → String} {st st' : State}
    {k : String} {m : Model} {t : Trigger}
    (h : setitem mig pg st k m t = (none, st')) :
    k = m.label ++ ":" ++ t.name ∧
    st' = { data := dictInsert st.data k (m, t),
            meta := metaAfter mig st.meta m t } ∧
    (by_db_table st.data m.db_table t.name = some t ∨
      (by_db_table st.data m.db_table t.name = none ∧
        (pg_function_names pg st.data).contains (pg m.db_table t.name) = false)) := by
  simp only [setitem] at h
  by_cases hk : k = m.label ++ ":" ++ t.name
  · rw [if_pos hk] at h
    refine ⟨hk, ?_⟩
    cases hf : by_db_table st.data m.db_table t.name with
    | some ft =>
      rw [hf] at h
      by_cases hft : ft = t
      · subst hft
        simp only [if_pos rfl] at h
        have hst := ((Prod.mk.injEq _ _ _ _).mp h).2
        refine ⟨?_, Or.inl rfl⟩
        rw [← hst]
        cases mig <;> rfl
      · rw [if_neg (by simpa using hft)] at h
        simp at h
    | none =>
      rw [hf] at h
      rw [if_neg (by simp)] at h
      simp only [Option.isSome_none, Bool.false_eq_true, if_false] at h
      by_cases hc : (pg_function_names pg st.data).contains (pg m.db_table t.name) = true
      · rw [if_pos hc] at h
        simp at h
      · rw [if_neg hc] at h
        have hst := ((Prod.mk.injEq _ _ _ _).mp h).2
        refine ⟨?_, Or.inr ⟨rfl, Bool.eq_false_iff.mpr (fun hx => hc hx)⟩⟩
        rw [← hst]
        cases mig <;> rfl
  · rw [if_neg hk] at h
    simp at h

/-- Forward computation of `__setitem__` in the idempotent case: an equal
trigger is already registered under the same `(db_table, name)` pair, so
both checks are skipped and the write commits. -/
theorem setitem_ok_of_found_eq {mig : Bool} {pg : String → String → String} {st : State}
    {k : String} {m : Model} {t : Trigger}
    (hk : k = m.label ++ ":" ++ t.name)
    (hf : by_db_table st.data m.db_table t.name = some t) :
    setitem mig pg st k m t =
      (none, { data := dictInsert st.data k (m, t),
               meta := metaAfter mig st.meta m t }) := by
  simp only [setitem]
  rw [if_pos hk, hf, if_pos rfl]
  cases mig <;> rfl

/-! ## The claims -/

/-- C2: if the catalog contains an entry with the candidate's
`(db_table, name)` pair whose trigger differs from the candidate, `set`
fails with `DuplicateName` and the state — the store and every owner's
live and original collections — is exactly as before the call. -/
theorem C2_duplicate_name_aborts {mig : Bool} {pg : String → String → String}
    {st : State} {k : String} {m : Model} {t ft : Trigger}
    (hk : k = m.label ++ ":" ++ t.name)
    (hf : by_db_table st.data m.db_table t.name = some ft)
    (hne : ft ≠ t) :
    set mig pg st k m t = (some .duplicateName, st) := by
  simp only [set, setitem]
  rw [if_pos hk, hf, if_neg (by simpa using hne)]
  rfl

/-- C2 witness: registering a same-name different-definition trigger on
the shared table is rejected with `DuplicateName`, state untouched. -/
theorem C2_witness :
    ("app.M2:t1" = mShared2.label ++ ":" ++ tOther.name ∧
      by_db_table c1StateA.data mShared2.db_table tOther.name = some tShared ∧
      tShared ≠ tOther) ∧
    set true get_pgid c1StateA "app.M2:t1" mShared2 tOther
      = (some .duplicateName, c1StateA) := by
  refine ⟨⟨by decide, by decide, by decide⟩, ?_⟩
  exact @C2_duplicate_name_aborts true get_pgid c1StateA "app.M2:t1" mShared2 tOther tShared
    (by decide) (by decide) (by decide)

/-- C3: when no entry has the candidate's `(db_table, name)` pair and the
candidate's generated function identifier is already taken, `set` fails
with `DuplicateFunctionId` leaving the state (hence the first entry)
unchanged; and whenever an entry with the same `(db_table, name)` pair
exists, the function-id check never fires. -/
theorem C3_duplicate_function_id {mig : Bool} {pg : String → String → String}
    {st : State} {k : String} {m : Model} {t : Trigger}
    (hk : k = m.label ++ ":" ++ t.name) :
    (by_db_table st.data m.db_table t.name = none →
      (pg_function_names pg st.data).contains (pg m.db_table t.name) = true →
      set mig pg st k m t = (some .duplicateFunctionId, st)) ∧
    (∀ ft, by_db_table st.data m.db_table t.name = some ft →
      (set mig pg st k m t).1 ≠ some .duplicateFunctionId) := by
  constructor
  · intro hnone hcoll
    simp only [set, setitem]
    rw [if_pos hk, hnone]
    simp only [reduceCtorEq, if_false, Option.isSome_none, Bool.false_eq_true]
    rw [if_pos hcoll]
  · intro ft hft
    simp only [set, setitem]
    rw [if_pos hk, hft]
    by_cases hftt : ft = t
    · subst hftt
      rw [if_pos rfl]
      simp
    · rw [if_neg (by simpa using hftt)]
      simp

/-- C3 witness: with the non-injective derivation `pgidNameOnly`, a
trigger on a distinct `(db_table, name)` pair whose function id collides
with the stored entry's is rejected with `DuplicateFunctionId`. -/
theorem C3_witness :
    ("app.M3:t1" = mOther.label ++ ":" ++ tThird.name ∧
      by_db_table c1StateA.data mOther.db_table tThird.name = none ∧
      (pg_function_names pgidNameOnly c1StateA.data).contains
        (pgidNameOnly mOther.db_table tThird.name) = true) ∧
    set true pgidNameOnly c1StateA "app.M3:t1" mOther tThird
      = (some .duplicateFunctionId, c1StateA) := by
  refine ⟨⟨by decide, by decide, by decide⟩, ?_⟩
  exact (@C3_duplicate_function_id true pgidNameOnly c1StateA "app.M3:t1" mOther tThird
    (by decide)).1 (by decide) (by decide)

/-- C7, corrected: deleting a stored entry whose trigger is live succeeds
whenever the owner's metadata has an original-declaration collection —
even one not containing the trigger — but when `original_attrs` has no
`"triggers"` key at all, the delete raises the `KeyError` of the bare
subscript (after the store and live mutations). -/
theorem C7_missing_original {st : State} {uri : String} {m : Model} {t : Trigger}
    {l : List Trigger}
    (hcol : hasColon uri = true)
    (hlook : dictLookup st.data uri = some (m, t))
    (hl : (getMeta st.meta m).triggers = some l) (hmem : t ∈ l) :
    (∀ lo, (getMeta st.meta m).original_triggers = some lo →
      ∃ st2, delete true st uri = (none, st2)) ∧
    ((getMeta st.meta m).original_triggers = none →
      delete true st uri = (some .keyErrorOriginal,
        { data := dictErase st.data uri,
          meta := setMeta st.meta m
            { triggers := some (l.erase t), original_triggers := none } })) := by
  constructor
  · intro lo hlo
    exact ⟨_, delitem_true_ok hcol hlook hl hmem hlo⟩
  · intro hlo
    exact delitem_true_keyError hcol hlook hl hmem hlo

/-- C7 counterexample: on a stored entry whose owner has no
original-declaration collection, `delete` raises instead of succeeding. -/
theorem C7_counterexample :
    (delete true c7State "app.M1:t1").1 = some RegError.keyErrorOriginal := by
  decide

/-- C7 witness: with an original-declaration collection present (here not
containing a second copy), the delete succeeds. -/
theorem C7_witness :
    (hasColon "app.M1:t1" = true ∧
      dictLookup c1StateA.data "app.M1:t1" = some (mShared1, tShared) ∧
      (getMeta c1StateA.meta mShared1).triggers = some [tShared] ∧
      tShared ∈ [tShared]) ∧
    ∃ st2, delete true c1StateA "app.M1:t1" = (none, st2) := by
  refine ⟨⟨by decide, by decide, by decide, by decide⟩, ?_⟩
  exact (@C7_missing_original c1StateA "app.M1:t1" mShared1 tShared [tShared]
    (by decide) (by decide) (by decide) (by decide)).1 [tShared] (by decide)

/-- C8, corrected: `set` on a URI with no colon fails — but with the
internal key-consistency `AssertionError`, not the URI-parse
`MalformedURI` error, because `__setitem__` never parses the key; the
state is untouched. -/
theorem C8_no_colon_assert {mig : Bool} {pg : String → String → String}
    {st : State} {uri : String} {m : Model} {t : Trigger}
    (h : ':' ∉ uri.data) :
    set mig pg st uri m t = (some .assertionFailed, st) := by
  simp only [set, setitem]
  rw [if_neg (ne_concat_of_noColon h)]

/-- C8 counterexample: `set("notaurl", ...)` raises the assertion error,
which is not the `MalformedURI` parse error the claim promises. -/
theorem C8_counterexample :
    set true get_pgid (⟨[], []⟩ : State) "notaurl" mShared1 tShared
        = (some .assertionFailed, (⟨[], []⟩ : State)) ∧
      RegError.assertionFailed ≠ RegError.malformedURI := by
  constructor
  · decide
  · decide

/-- C8 witness for the amended statement. -/
theorem C8_witness :
    (':' ∉ "nocolonhere".data) ∧
    set false get_pgid c1StateA "nocolonhere" mShared2 tOther
      = (some .assertionFailed, c1StateA) := by
  refine ⟨by decide, ?_⟩
  exact @C8_no_colon_assert false get_pgid c1StateA "nocolonhere" mShared2 tOther (by decide)

/-- C9: `get` and `delete` on a URI with no colon both fail with
`MalformedURI` and leave the state unchanged. -/
theorem C9_malformed_rejected {mig : Bool} {st : State} {uri : String}
    (h : ':' ∉ uri.data) :
    getitem st uri = .error .malformedURI ∧
    delete mig st uri = (some .malformedURI, st) := by
  have g := @getitem_malformed st uri (hasColon_eq_false_of h)
  exact ⟨g, delitem_getitem_error g⟩

/-- C9 witness at the spec's own example key. -/
theorem C9_witness :
    (':' ∉ "notaurl".data) ∧
    (getitem c1StateA "notaurl" = .error .malformedURI ∧
      delete true c1StateA "notaurl" = (some .malformedURI, c1StateA)) := by
  refine ⟨by decide, ?_⟩
  exact @C9_malformed_rejected true c1StateA "notaurl" (by decide)

/-- C10: `__delitem__` removes the store entry before the metadata
mirror, so when the mirror's `list.remove` fails because the trigger is
absent from the live list, the error propagates with the entry already
gone from the store: delete is not atomic with respect to its mirror. -/
theorem C10_delete_not_atomic {st : State} {uri : String} {m : Model} {t : Trigger}
    {l : List Trigger}
    (hcol : hasColon uri = true)
    (hlook : dictLookup st.data uri = some (m, t))
    (hl : (getMeta st.meta m).triggers = some l) (hmem : t ∉ l) :
    delete true st uri = (some .valueErrorRemove, { st with data := dictErase st.data uri }) ∧
    dictLookup (dictErase st.data uri) uri = none := by
  exact ⟨delitem_true_valueError hcol hlook hl hmem, alistLookup_erase st.data uri⟩

/-- C10 witness: a stored entry missing from its owner's live list. -/
theorem C10_witness :
    (hasColon "app.M1:t1" = true ∧
      dictLookup c10State.data "app.M1:t1" = some (mShared1, tShared) ∧
      (getMeta c10State.meta mShared1).triggers = some [] ∧
      tShared ∉ ([] : List Trigger)) ∧
    (delete true c10State "app.M1:t1"
        = (some .valueErrorRemove, { c10State with data := dictErase c10State.data "app.M1:t1" }) ∧
      dictLookup (dictErase c10State.data "app.M1:t1") "app.M1:t1" = none) := by
  refine ⟨⟨by decide, by decide, by decide, by decide⟩, ?_⟩
  exact @C10_delete_not_atomic c10State "app.M1:t1" mShared1 tShared []
    (by decide) (by decide) (by decide) (by decide)

/-- The list the mirror stores in `model._meta.triggers` contains the
trigger. -/
theorem mem_mirror_list (ms : MetaState) (t : Trigger) :
    t ∈ (if t ∈ ms.triggers.getD [] then ms.triggers.getD []
         else ms.triggers.getD [] ++ [t]) := by
  by_cases h : t ∈ ms.triggers.getD [] <;> simp [h]

/-- C1 (amended): after every sequence of successful public `set` and
`delete` calls from the empty catalog, any two stored entries with the
same generated function identifier have the same `(db_table, name)` pair.
Full pgid-uniqueness across *distinct entries* does not hold (see the
counterexample): idempotent re-registration of an equal trigger under a
second URI stores a second entry with the same pgid. -/
theorem C1_pgid_collision_only_same_pair (mig : Bool) (pg : String → String → String)
    (st : State) (h : Reachable mig pg st) : PgidSameTableName pg st := by
  induction h with
  | empty =>
    intro e1 h1
    simp at h1
  | setStep hr heq ih =>
    obtain ⟨hk, hst, hgate⟩ := setitem_eq_ok heq
    intro e1 h1 e2 h2 hpg
    rw [show _ = dictInsert _ _ _ from congrArg State.data hst] at h1 h2
    rcases mem_alistInsert h1 with h1 | h1 <;> rcases mem_alistInsert h2 with h2 | h2
    · exact ih e1 h1 e2 h2 hpg
    · subst h2
      rcases hgate with hg | ⟨-, hc⟩
      · rcases by_db_table_some_mem hg with ⟨e0, he0, hm0, -⟩
        have hp0 : pgidOf pg e0 = pgidOf pg e1 := by
          rw [hpg]
          simp [pgidOf, hm0.1, hm0.2]
        have := ih e1 h1 e0 he0 hp0.symm
        rw [this]
        simp [tnOf, hm0.1, hm0.2]
      · exact absurd hpg (pgid_not_mem_of_contains_false hc e1 h1)
    · subst h1
      rcases hgate with hg | ⟨-, hc⟩
      · rcases by_db_table_some_mem hg with ⟨e0, he0, hm0, -⟩
        have hp0 : pgidOf pg e0 = pgidOf pg e2 := by
          rw [← hpg]
          simp [pgidOf, hm0.1, hm0.2]
        have := ih e2 h2 e0 he0 hp0.symm
        rw [this]
        simp [tnOf, hm0.1, hm0.2]
      · exact absurd hpg.symm (pgid_not_mem_of_contains_false hc e2 h2)
    · subst h1
      subst h2
      rfl
  | delStep hr heq ih =>
    have hd := delitem_ok_data heq
    intro e1 h1 e2 h2 hpg
    rw [hd] at h1 h2
    exact ih e1 (List.mem_filter.mp h1).1 e2 (List.mem_filter.mp h2).1 hpg

/-- C1 counterexample: re-registering the equal trigger for a second model
on the same table under a different URI succeeds and stores two distinct
entries with the same generated function identifier, refuting global
pgid-uniqueness on a reachable state. -/
theorem C1_counterexample :
    Reachable true get_pgid c1StateB ∧ ¬ PgidUnique get_pgid c1StateB := by
  constructor
  · exact @Reachable.setStep true get_pgid c1StateA c1StateB "app.M2:t1" mShared2 tShared
      (@Reachable.setStep true get_pgid ⟨[], []⟩ c1StateA "app.M1:t1" mShared1 tShared
        Reachable.empty (by decide))
      (by decide)
  · intro hpu
    exact hpu ("app.M1:t1", mShared1, tShared) (by decide)
      ("app.M2:t1", mShared2, tShared) (by decide) (by decide) (by decide)

/-- C1 witness for the amended invariant, at a nonempty reachable state. -/
theorem C1_witness :
    Reachable true get_pgid c1StateA ∧ PgidSameTableName get_pgid c1StateA := by
  have r : Reachable true get_pgid c1StateA :=
    @Reachable.setStep true get_pgid ⟨[], []⟩ c1StateA "app.M1:t1" mShared1 tShared
      Reachable.empty (by decide)
  exact ⟨r, C1_pgid_collision_only_same_pair true get_pgid c1StateA r⟩

/-- C4: a second `set` with identical `(uri, model, trigger)` succeeds
after a successful first one, leaving exactly one store entry under the
URI and no duplicate of the trigger in the owner's live or
original-declaration collection (given the pre-state had no duplicates,
which de-duplicated appends preserve). -/
theorem C4_idempotent_reregistration {mig : Bool} {pg : String → String → String}
    {st st1 : State} {uri : String} {m : Model} {t : Trigger}
    (h1 : set mig pg st uri m t = (none, st1))
    (hkey : countKey st.data uri ≤ 1)
    (hlive : (liveList st m).count t ≤ 1)
    (horig : (origList st m).count t ≤ 1) :
    ∃ st2, set mig pg st1 uri m t = (none, st2) ∧
      countKey st2.data uri = 1 ∧
      (liveList st2 m).count t ≤ 1 ∧
      (origList st2 m).count t ≤ 1 := by
  obtain ⟨hk, hst1, hgate⟩ := setitem_eq_ok h1
  subst hst1
  have hf1 : by_db_table (dictInsert st.data uri (m, t)) m.db_table t.name = some t :=
    by_db_table_insert_self (hgate.elim (fun hg => Or.inr hg) (fun hg => Or.inl hg.1))
  have hc1 : countKey (dictInsert st.data uri (m, t)) uri = 1 := by
    rw [countKey_insert]
    by_cases hany : st.data.any (fun e => e.1 = uri) = true
    · rw [if_pos hany]
      have := countKey_pos_of_any hany
      omega
    · rw [if_neg hany]
      have : ¬ 0 < countKey st.data uri := fun hp => hany (any_of_countKey_pos hp)
      omega
  refine ⟨_, setitem_ok_of_found_eq hk hf1, ?_, ?_, ?_⟩
  · show countKey (dictInsert (dictInsert st.data uri (m, t)) uri (m, t)) uri = 1
    rw [countKey_insert, if_pos (any_of_countKey_pos (by omega))]
    exact hc1
  · show ((getMeta (metaAfter mig (metaAfter mig st.meta m t) m t) m).triggers.getD
        []).count t ≤ 1
    cases mig with
    | false => exact hlive
    | true =>
      rw [getMeta_metaAfter_true, getMeta_metaAfter_true]
      exact le_of_eq (count_mirror_triggers (le_of_eq (count_mirror_triggers hlive)))
  · show ((getMeta (metaAfter mig (metaAfter mig st.meta m t) m t) m).original_triggers.getD
        []).count t ≤ 1
    cases mig with
    | false => exact horig
    | true =>
      rw [getMeta_metaAfter_true, getMeta_metaAfter_true]
      exact le_of_eq (count_mirror_original (le_of_eq (count_mirror_original horig)))

/-- C4 witness: registering the same trigger twice from the empty catalog. -/
theorem C4_witness :
    (set true get_pgid (⟨[], []⟩ : State) "app.M1:t1" mShared1 tShared = (none, c1StateA) ∧
      countKey (⟨[], []⟩ : State).data "app.M1:t1" ≤ 1 ∧
      (liveList ⟨[], []⟩ mShared1).count tShared ≤ 1 ∧
      (origList ⟨[], []⟩ mShared1).count tShared ≤ 1) ∧
    ∃ st2, set true get_pgid c1StateA "app.M1:t1" mShared1 tShared = (none, st2) ∧
      countKey st2.data "app.M1:t1" = 1 ∧
      (liveList st2 mShared1).count tShared ≤ 1 ∧
      (origList st2 mShared1).count tShared ≤ 1 := by
  refine ⟨⟨by decide, by decide, by decide, by decide⟩, ?_⟩
  exact @C4_idempotent_reregistration true get_pgid ⟨[], []⟩ c1StateA "app.M1:t1"
    mShared1 tShared (by decide) (by decide) (by decide) (by decide)

/-- C5: from a state where `set` of a fresh URI succeeded, `get` returns
the stored pair, `delete` succeeds, and afterwards both `get` and a second
`delete` fail with `NotFound`. -/
theorem C5_roundtrip {mig : Bool} {pg : String → String → String}
    {st st1 : State} {uri : String} {m : Model} {t : Trigger}
    (_hfresh : dictLookup st.data uri = none)
    (h1 : set mig pg st uri m t = (none, st1)) :
    getitem st1 uri = .ok (m, t) ∧
    ∃ st2, delete mig st1 uri = (none, st2) ∧
      getitem st2 uri = .error .notFound ∧
      delete mig st2 uri = (some .notFound, st2) := by
  obtain ⟨hk, hst1, -⟩ := setitem_eq_ok h1
  subst hst1
  have hcol : hasColon uri = true := by
    rw [hk]
    exact hasColon_concat _ _
  have hlook : dictLookup (dictInsert st.data uri (m, t)) uri = some (m, t) :=
    alistLookup_insert _ _ _
  refine ⟨getitem_found hcol hlook, ?_⟩
  have hdel : ∃ st2, delitem mig
      ⟨dictInsert st.data uri (m, t), metaAfter mig st.meta m t⟩ uri = (none, st2) := by
    cases mig with
    | false => exact ⟨_, delitem_false_ok hcol hlook⟩
    | true =>
      have hl : (getMeta (metaAfter true st.meta m t) m).triggers
          = some (if t ∈ (getMeta st.meta m).triggers.getD []
                  then (getMeta st.meta m).triggers.getD []
                  else (getMeta st.meta m).triggers.getD [] ++ [t]) := by
        rw [getMeta_metaAfter_true, mirrorMeta_triggers]
      have hlo : (getMeta (metaAfter true st.meta m t) m).original_triggers
          = some (if t ∈ (getMeta st.meta m).original_triggers.getD []
                  then (getMeta st.meta m).original_triggers.getD []
                  else (getMeta st.meta m).original_triggers.getD [] ++ [t]) := by
        rw [getMeta_metaAfter_true, mirrorMeta_original]
      exact ⟨_, delitem_true_ok hcol hlook hl (mem_mirror_list _ _) hlo⟩
  rcases hdel with ⟨st2, hdel⟩
  have hlook2 : dictLookup st2.data uri = none := by
    rw [delitem_ok_data hdel]
    exact alistLookup_erase _ _
  have g2 : getitem st2 uri = .error .notFound := getitem_notFound hcol hlook2
  exact ⟨st2, hdel, g2, delitem_getitem_error g2⟩

/-- C5 witness: round-trip on a fresh URI from the empty catalog. -/
theorem C5_witness :
    (dictLookup (⟨[], []⟩ : State).data "app.M1:t1" = none ∧
      set true get_pgid (⟨[], []⟩ : State) "app.M1:t1" mShared1 tShared = (none, c1StateA)) ∧
    (getitem c1StateA "app.M1:t1" = .ok (mShared1, tShared) ∧
      ∃ st2, delete true c1StateA "app.M1:t1" = (none, st2) ∧
        getitem st2 "app.M1:t1" = .error .notFound ∧
        delete true st2 "app.M1:t1" = (some .notFound, st2)) := by
  refine ⟨⟨by decide, by decide⟩, ?_⟩
  exact @C5_roundtrip true get_pgid ⟨[], []⟩ c1StateA "app.M1:t1" mShared1 tShared
    (by decide) (by decide)

/-- C6: with synchronization enabled, after a successful `set` the live
and original collections contain the trigger exactly once (pre-existing
single copies are not duplicated), and after the subsequent `delete` the
live collection no longer contains it. -/
theorem C6_sync_mirroring {pg : String → String → String}
    {st st1 : State} {uri : String} {m : Model} {t : Trigger}
    (h1 : set true pg st uri m t = (none, st1))
    (hlive : (liveList st m).count t ≤ 1)
    (horig : (origList st m).count t ≤ 1) :
    (liveList st1 m).count t = 1 ∧
    (origList st1 m).count t = 1 ∧
    ∃ st2, delete true st1 uri = (none, st2) ∧ (liveList st2 m).count t = 0 := by
  obtain ⟨hk, hst1, -⟩ := setitem_eq_ok h1
  subst hst1
  have hcol : hasColon uri = true := by
    rw [hk]
    exact hasColon_concat _ _
  have c1 : ((getMeta (metaAfter true st.meta m t) m).triggers.getD []).count t = 1 := by
    rw [getMeta_metaAfter_true]
    exact count_mirror_triggers hlive
  have c2 : ((getMeta (metaAfter true st.meta m t) m).original_triggers.getD []).count t
      = 1 := by
    rw [getMeta_metaAfter_true]
    exact count_mirror_original horig
  refine ⟨c1, c2, ?_⟩
  have hlook : dictLookup (dictInsert st.data uri (m, t)) uri = some (m, t) :=
    alistLookup_insert _ _ _
  have hl : (getMeta (metaAfter true st.meta m t) m).triggers
      = some (if t ∈ (getMeta st.meta m).triggers.getD []
              then (getMeta st.meta m).triggers.getD []
              else (getMeta st.meta m).triggers.getD [] ++ [t]) := by
    rw [getMeta_metaAfter_true, mirrorMeta_triggers]
  have hlo : (getMeta (metaAfter true st.meta m t) m).original_triggers
      = some (if t ∈ (getMeta st.meta m).original_triggers.getD []
              then (getMeta st.meta m).original_triggers.getD []
              else (getMeta st.meta m).original_triggers.getD [] ++ [t]) := by
    rw [getMeta_metaAfter_true, mirrorMeta_original]
  refine ⟨_, delitem_true_ok hcol hlook hl (mem_mirror_list _ _) hlo, ?_⟩
  show ((getMeta (setMeta (metaAfter true st.meta m t) m _) m).triggers.getD []).count t = 0
  rw [getMeta_setMeta]
  show ((if t ∈ (getMeta st.meta m).triggers.getD []
        then (getMeta st.meta m).triggers.getD []
        else (getMeta st.meta m).triggers.getD [] ++ [t]).erase t).count t = 0
  rw [List.count_erase_self]
  have h1c : ((getMeta (metaAfter true st.meta m t) m).triggers.getD []).count t = 1 := c1
  rw [getMeta_metaAfter_true, mirrorMeta_triggers] at h1c
  simp only [Option.getD_some] at h1c
  omega

/-- C6 witness: mirroring from the empty catalog. -/
theorem C6_witness :
    (set true get_pgid (⟨[], []⟩ : State) "app.M1:t1" mShared1 tShared = (none, c1StateA) ∧
      (liveList ⟨[], []⟩ mShared1).count tShared ≤ 1 ∧
      (origList ⟨[], []⟩ mShared1).count tShared ≤ 1) ∧
    ((liveList c1StateA mShared1).count tShared = 1 ∧
      (origList c1StateA mShared1).count tShared = 1 ∧
      ∃ st2, delete true c1StateA "app.M1:t1" = (none, st2) ∧
        (liveList st2 mShared1).count tShared = 0) := by
  refine ⟨⟨by decide, by decide, by decide⟩, ?_⟩
  exact @C6_sync_mirroring get_pgid ⟨[], []⟩ c1StateA "app.M1:t1" mShared1 tShared
    (by decide) (by decide) (by decide)

end Pgtrigger
